import Mathlib

/-!
Shallow embedding of the Medic-assistant client logic
(`frontend/src/components/Chat.jsx`, later revision, and
`frontend/src/pages/DoctorReportsPage.jsx`), together with proofs about the
Suggested-Action Inferencer, the time-token extractor, the chat error/fallback
messages and the report statistics.

Strings are modelled by Lean `String` (a wrapper around `List Char`); the
JavaScript string builtins used by the source (`toLowerCase`, `toUpperCase`,
`includes`, `trim`) are modelled explicitly below.  The ambient "current date"
used by `getNextTwoDays` (JS `new Date()`) is passed in explicitly as a count
of days since 1970-01-01.
-/

/-- An ASCII apostrophe, used inside several UI strings. -/
def apos : Char := Char.ofNat 39

/-- The apostrophe as a one-character string. -/
def aposS : String := String.mk [apos]

/-- Model of JS `String.prototype.toLowerCase` (ASCII, which covers all
strings compared by the source). -/
def jsToLowerCase (s : String) : String := String.mk (s.data.map Char.toLower)

/-- Model of JS `String.prototype.toUpperCase` (ASCII). -/
def jsToUpperCase (s : String) : String := String.mk (s.data.map Char.toUpper)

/-- Model of JS `String.prototype.includes`: `pat` occurs as a contiguous
substring of `s`. -/
def strIncludes (s pat : String) : Bool :=
  (s.data.tails).any (fun t => pat.data.isPrefixOf t)

/-- Model of JS `String.prototype.trim`: drop leading and trailing
whitespace. -/
def jsTrim (s : String) : String :=
  String.mk (((s.data.dropWhile Char.isWhitespace).reverse.dropWhile Char.isWhitespace).reverse)

/-! ### Calendar model for `getNextTwoDays`

A date is a number of days since 1970-01-01 (UTC).  `civilFromDays` is the
standard days-to-civil conversion; `dayOfWeek` exploits that 1970-01-01 was a
Thursday.  These model the JS `Date` getters `getFullYear`/`getMonth`/
`getDate`/`getDay` and `setDate(getDate()+k)` (adding `k` days). -/

/-- Convert a day count since 1970-01-01 to a civil `(year, month, day)`
triple, months 1..12, days 1..31. -/
def civilFromDays (z : Nat) : Nat × Nat × Nat :=
  let s := z + 719468
  let era := s / 146097
  let doe := s % 146097
  let yoe := (doe - doe / 1460 + doe / 36524 - doe / 146096) / 365
  let y0 := yoe + era * 400
  let doy := doe - (365 * yoe + yoe / 4 - yoe / 100)
  let mp := (5 * doy + 2) / 153
  let d := doy - (153 * mp + 2) / 5 + 1
  let m := if mp < 10 then mp + 3 else mp - 9
  (if m ≤ 2 then y0 + 1 else y0, m, d)

/-- Day of week, 0 = Sunday (JS `Date.prototype.getDay`). -/
def dayOfWeek (z : Nat) : Nat := (z + 4) % 7

/-- The `days` array of `getNextTwoDays`. -/
def dayNames : List String :=
  ["Sunday", "Monday", "Tuesday", "Wednesday", "Thursday", "Friday", "Saturday"]

/-- The `months` array of `getNextTwoDays`. -/
def monthNames : List String :=
  ["Jan", "Feb", "Mar", "Apr", "May", "Jun", "Jul", "Aug", "Sep", "Oct", "Nov", "Dec"]

/-- The inner `formatDate` of `getNextTwoDays`:
`days[getDay()] ++ ", " ++ months[getMonth()] ++ " " ++ getDate()`. -/
def formatDate (z : Nat) : String :=
  let c := civilFromDays z
  (dayNames.getD (dayOfWeek z) "") ++ ", " ++ (monthNames.getD (c.2.1 - 1) "") ++ " "
    ++ toString c.2.2

/-- Zero-pad a number to two digits, as in an ISO date. -/
def pad2 (n : Nat) : String := if n < 10 then "0" ++ toString n else toString n

/-- Model of `date.toISOString().split('T')[0]` for a day count. -/
def isoDate (z : Nat) : String :=
  let c := civilFromDays z
  toString c.1 ++ "-" ++ pad2 c.2.1 ++ "-" ++ pad2 c.2.2

/-- One entry of the list built by `getNextTwoDays`. -/
structure DateOption where
  label : String
  value : String
deriving DecidableEq, Repr

/-- `getNextTwoDays` from `Chat.jsx` (later revision): despite its name it
returns three options — today, tomorrow, and the day after tomorrow. -/
def getNextTwoDays (today : Nat) : List DateOption :=
  [ ⟨"Today (" ++ formatDate today ++ ")", isoDate today⟩,
    ⟨"Tomorrow (" ++ formatDate (today + 1) ++ ")", isoDate (today + 1)⟩,
    ⟨formatDate (today + 2), isoDate (today + 2)⟩ ]

/-! ### The time-token scanner `extractTimeSlots`

The source applies the regex `\b(\d{1,2}):(\d{2})\s*(AM|PM|am|pm)?\b` with
`matchAll`, then normalizes each match.  The scanner below reproduces the
regex engine's behaviour on this pattern, including the backtracking of
`\s*(AM|PM|am|pm)?\b` and the scan-position advance of `matchAll`. -/

/-- JS regex word character (`\w`): ASCII letter, digit or underscore. -/
def isWordChar (c : Char) : Bool := c.isAlphanum || c = '_'

/-- Whether a (possibly empty) character list starts with a word character;
the end of the string counts as a non-word position. -/
def startsWord : List Char → Bool
  | [] => false
  | c :: _ => isWordChar c

/-- Word boundary `\b` at a position whose following characters are `cs`,
given that the last character before the position is a word character. -/
def boundaryAfter : List Char → Bool
  | [] => true
  | c :: _ => !isWordChar c

/-- The meridiem alternatives of the regex, exactly `AM|PM|am|pm`. -/
def isMeridiemStr (s : String) : Bool :=
  s = "AM" || s = "PM" || s = "am" || s = "pm"

/-- Match `(\d{1,2}):` at the head of `cs` (greedy on the digits, as the
regex is): returns the matched digit characters and the remainder after the
colon. -/
def matchHour : List Char → Option (List Char × List Char)
  | d1 :: ':' :: rest => if d1.isDigit then some ([d1], rest) else none
  | d1 :: d2 :: ':' :: rest =>
      if d1.isDigit && d2.isDigit then some ([d1, d2], rest) else none
  | _ => none

/-- Match `(\d{2})` at the head of `cs`: returns the two digit characters,
the second of them (the last character consumed), and the remainder. -/
def matchMin : List Char → Option (List Char × Char × List Char)
  | m1 :: m2 :: rest =>
      if m1.isDigit && m2.isDigit then some ([m1, m2], m2, rest) else none
  | _ => none

/-- Try `(AM|PM|am|pm)?\b` at the current position (preferring a present
meridiem, as `?` is greedy); `prevC` is the character just before the
position.  Returns the optional meridiem, the remainder after the match, and
the last character consumed by the whole time match. -/
def tailHere (prevC : Char) (cs : List Char) : Option (Option String × List Char × Char) :=
  let emptyCase : Option (Option String × List Char × Char) :=
    if isWordChar prevC != startsWord cs then some (none, cs, prevC) else none
  match cs with
  | c1 :: c2 :: rest =>
      if isMeridiemStr (String.mk [c1, c2]) && boundaryAfter rest then
        some (some (String.mk [c1, c2]), rest, c2)
      else emptyCase
  | _ => emptyCase

/-- Match `\s*(AM|PM|am|pm)?\b` with the regex engine's backtracking order:
consume as much whitespace as possible first, retreating one whitespace
character at a time when the rest of the pattern fails. -/
def matchTail : Char → List Char → Option (Option String × List Char × Char)
  | prevC, [] => tailHere prevC []
  | prevC, c :: rest =>
      if c.isWhitespace then
        match matchTail c rest with
        | some r => some r
        | none => tailHere prevC (c :: rest)
      else tailHere prevC (c :: rest)

/-- One raw regex match: the captured hour digits, minute digits, and
optional meridiem group. -/
structure RawTime where
  hourStr : List Char
  minStr : List Char
  meridiem : Option String
deriving DecidableEq, Repr

/-- Word boundary `\b` before the first digit of a match: it holds at the
start of the string or after a non-word character (the first matched
character is a digit, hence a word character). -/
def boundaryBefore : Option Char → Bool
  | none => true
  | some p => !isWordChar p

/-- Try the whole time regex at the current position.  `prev` is the
character before the position (`none` at the start of the string).  Returns
the raw match, the remainder after the match end, and the last character of
the match. -/
def tryTimeAt (prev : Option Char) (cs : List Char) : Option (RawTime × List Char × Char) :=
  if !boundaryBefore prev then none
  else match matchHour cs with
    | none => none
    | some (hs, rest1) =>
      match matchMin rest1 with
      | none => none
      | some (ms, lastMin, rest2) =>
        match matchTail lastMin rest2 with
        | none => none
        | some (mer, rest3, lastC) => some (⟨hs, ms, mer⟩, rest3, lastC)

/-- Scan the whole string left to right as `matchAll` does: after a match,
resume at the match end; after a failed attempt, advance one character.
`fuel` only serves termination and is initialised to the string length, which
the scan can never exhaust early since every step consumes at least one
character. -/
def scanAux : Nat → Option Char → List Char → List RawTime
  | 0, _, _ => []
  | _, _, [] => []
  | Nat.succ fuel, prev, c :: rest =>
      match tryTimeAt prev (c :: rest) with
      | some (t, rem, lastC) => t :: scanAux fuel (some lastC) rem
      | none => scanAux fuel (some c) rest

/-- All raw time matches of a string, in scan order. -/
def scanTimes (text : String) : List RawTime :=
  scanAux text.data.length none text.data

/-- JS `parseInt` on a string of decimal digits. -/
def parseIntDigits (ds : List Char) : Nat :=
  ds.foldl (fun a c => a * 10 + (c.toNat - 48)) 0

/-- The normalization applied to one match by `extractTimeSlots`: when no
meridiem was captured, infer AM/PM from the hour and convert to 12-hour form
(`hour -= 12` when above 12, hour 0 becomes 12); when a meridiem was
captured, keep the parsed hour verbatim and only upper-case the meridiem. -/
def normalizeRaw (t : RawTime) : String :=
  let hour := parseIntDigits t.hourStr
  let minute := String.mk t.minStr
  match t.meridiem with
  | some mer => toString hour ++ ":" ++ minute ++ " " ++ jsToUpperCase mer
  | none =>
    let mer := if hour ≥ 12 then "PM" else "AM"
    let hour1 := if hour > 12 then hour - 12 else hour
    let hour2 := if hour1 = 0 then 12 else hour1
    toString hour2 ++ ":" ++ minute ++ " " ++ mer

/-- Deduplication as performed by inserting into a JS `Set` and converting
back with `Array.from`: first occurrences survive, in order. -/
def dedupAux (seen : List String) : List String → List String
  | [] => []
  | x :: xs => if x ∈ seen then dedupAux seen xs else x :: dedupAux (x :: seen) xs

/-- First-occurrence deduplication of a list of strings. -/
def dedupList (l : List String) : List String := dedupAux [] l

/-- `extractTimeSlots` from `Chat.jsx` (later revision). -/
def extractTimeSlots (text : String) : List String :=
  dedupList ((scanTimes text).map normalizeRaw)

/-! ### The Suggested-Action Inferencer `parseSuggestedActions` -/

/-- Condition of the date rule of `parseSuggestedActions`, on the lowercased
content. -/
def wantsDate (lc : String) : Bool :=
  strIncludes lc "which date" || strIncludes lc "what date" ||
    strIncludes lc "when would you like"

/-- Condition of the time-slot rule of `parseSuggestedActions`. -/
def wantsTime (lc : String) : Bool :=
  strIncludes lc "available slots" || strIncludes lc "what time"

/-- Condition of the confirmation rule of `parseSuggestedActions`. -/
def wantsConfirm (lc : String) : Bool :=
  strIncludes lc "confirm" || strIncludes lc "is this correct"

/-- Condition of the doctor-selection rule of `parseSuggestedActions`. -/
def wantsDoctor (lc : String) : Bool :=
  strIncludes lc "which doctor" || strIncludes lc "like to see"

/-- The fixed doctor-mode quick menu returned by `parseSuggestedActions`. -/
def doctorMenu : List String :=
  [ "Today" ++ aposS ++ "s Schedule",
    "Tomorrow" ++ aposS ++ "s Schedule",
    "Day After Tomorrow",
    "Weekly Report",
    "Patient Stats" ]

/-- The fixed fallback slot list of the time rule. -/
def defaultSlots : List String := ["9:00 AM", "10:00 AM", "2:00 PM"]

/-- The fixed doctor-name list of the doctor-selection rule. -/
def patientDoctorList : List String :=
  ["Dr. Mohit Adoni", "Dr. Sarah Johnson", "Dr. Michael Chen"]

/-- One entry of the client-side `doctors` roster in `Chat.jsx`. -/
structure Doctor where
  id : Nat
  name : String
deriving DecidableEq, Repr

/-- The `doctors` array of `Chat.jsx` (later revision): the full roster of
doctors known to the client. -/
def clientDoctors : List Doctor :=
  [ ⟨1, "Dr. Sarah Johnson (General)"⟩,
    ⟨2, "Dr. Michael Chen (Cardiology)"⟩,
    ⟨3, "Dr. Emily Williams (Dermatology)"⟩,
    ⟨4, "Dr. James Brown (Neurology)"⟩,
    ⟨5, "Dr. Mohit Adoni (General)"⟩ ]

/-- `parseSuggestedActions` from `Chat.jsx` (later revision).  The response
is `none` for a null/undefined JS value; `today` is the ambient current date
used by `getNextTwoDays`.  The guard `if (!response) return []` covers null,
undefined and the empty string; the doctor-role branch comes next, before all
text rules. -/
def parseSuggestedActions (role : String) (today : Nat) (response : Option String) : List String :=
  match response with
  | none => []
  | some content =>
    if content = "" then []
    else
      let lowerContent := jsToLowerCase content
      if role = "doctor" then doctorMenu
      else if wantsDate lowerContent then (getNextTwoDays today).map DateOption.label
      else if wantsTime lowerContent then
        let extractedSlots := extractTimeSlots content
        if extractedSlots.length > 0 then extractedSlots else defaultSlots
      else if wantsConfirm lowerContent then ["Yes, confirm", "No, cancel"]
      else if wantsDoctor lowerContent then patientDoctorList
      else []

/-! ### `sendMessage`: displayed assistant content and error fallbacks -/

/-- The fixed fallback shown instead of a blank assistant turn. -/
def stillProcessingMsg : String :=
  "I’m still processing that. Please try again in a moment or rephrase your request."

/-- The assistant content appended for a successful `/chat` response:
`(data.response && data.response.trim()) ? data.response : fallback`.
`none` models an absent `response` field. -/
def displayedContent : Option String → String
  | none => stillProcessingMsg
  | some s => if s ≠ "" ∧ jsTrim s ≠ "" then s else stillProcessingMsg

/-- A JS error as observed by the `catch` block of `sendMessage`. -/
structure JsError where
  name : String
  message : String
deriving DecidableEq, Repr

/-- The network-error test of the `catch` block:
`error?.message === 'Failed to fetch' || error?.name === 'TypeError'`. -/
def isNetworkError (e : JsError) : Bool :=
  e.message = "Failed to fetch" || e.name = "TypeError"

/-- The fallback content for an unreachable backend. -/
def backendDownMsg : String :=
  "Can" ++ aposS ++ "t connect to the server. Start the backend in a terminal: from project root run ./start_backend.sh (or: cd backend && source ../venv/bin/activate && uvicorn main:app --reload --port 8000), then try again."

/-- The assistant content appended by the `catch` block of `sendMessage`. -/
def chatErrorMessage (e : JsError) : String :=
  let content :=
    if isNetworkError e then backendDownMsg
    else "Something went wrong: " ++ e.message ++ ". Try again."
  "❌ " ++ content

/-! ### `DoctorReportsPage.fetchStats`: top visit reasons -/

/-- The label an appointment is counted under: `apt.reason || 'Not specified'`
(a missing or empty reason is falsy in JS). -/
def reasonLabel (reason : Option String) : String :=
  match reason with
  | none => "Not specified"
  | some s => if s = "" then "Not specified" else s

/-- One step of building `reasonCounts`:
`reasonCounts[reason] = (reasonCounts[reason] || 0) + 1`, on an association
list in key-insertion order (JS object string keys preserve insertion order,
and a new key is appended at the end). -/
def bumpReason : List (String × Nat) → String → List (String × Nat)
  | [], r => [(r, 1)]
  | p :: rest, r =>
      if p.1 = r then (p.1, p.2 + 1) :: rest else p :: bumpReason rest r

/-- The `reasonCounts` object of `fetchStats`, as an association list. -/
def reasonCounts (reasons : List (Option String)) : List (String × Nat) :=
  reasons.foldl (fun acc a => bumpReason acc (reasonLabel a)) []

/-- The lookup `reasonCounts[r] || 0` on the association list. -/
def keyCount (r : String) : List (String × Nat) → Nat
  | [] => 0
  | p :: rest => if p.1 = r then p.2 else keyCount r rest

/-- The sort order of `sort((a, b) => b[1] - a[1])`: non-increasing count. -/
def countGE (a b : String × Nat) : Prop := b.2 ≤ a.2

instance : DecidableRel countGE := fun a b => Nat.decLe b.2 a.2

instance : IsTotal (String × Nat) countGE := ⟨fun a b => Nat.le_total b.2 a.2⟩

instance : IsTrans (String × Nat) countGE :=
  ⟨fun _ _ _ hab hbc => Nat.le_trans hbc hab⟩

/-- The `topReasons` statistic of `fetchStats`:
`Object.entries(reasonCounts).sort((a, b) => b[1] - a[1]).slice(0, 5)`.
JS `Array.prototype.sort` is stable, so it is modelled by the stable
`insertionSort` with the comparator's order. -/
def topReasons (reasons : List (Option String)) : List (String × Nat) :=
  ((reasonCounts reasons).insertionSort countGE).take 5

/-! ## Claim theorems -/

/-- Claim C9: `parseSuggestedActions` returns the empty list for every null,
undefined, or empty-string response, regardless of role: the empty-input
guard precedes the doctor-mode branch, so the doctor quick-menu is never
offered for an absent assistant message. -/
theorem parseSuggestedActions_absent_response (role : String) (today : Nat) :
    parseSuggestedActions role today none = [] ∧
    parseSuggestedActions role today (some "") = [] := by
  constructor
  · rfl
  · simp [parseSuggestedActions]

/-- Claim C3: for every successful `/chat` response whose `response` field is
absent, empty, or whitespace-only, the assistant content appended to the
transcript is the fixed still-processing fallback string, never the blank
content. -/
theorem displayedContent_never_blank (s : String)
    (h : ∀ c ∈ s.data, c.isWhitespace = true) :
    displayedContent none = stillProcessingMsg ∧
    displayedContent (some "") = stillProcessingMsg ∧
    displayedContent (some s) = stillProcessingMsg := by
  have hd : s.data.dropWhile Char.isWhitespace = [] := by
    rw [List.dropWhile_eq_nil_iff]
    exact h
  have ht : jsTrim s = "" := by
    simp [jsTrim, hd]
  refine ⟨rfl, by simp [displayedContent], ?_⟩
  have hng : ¬(s ≠ "" ∧ jsTrim s ≠ "") := fun hc => hc.2 ht
  simp only [displayedContent]
  rw [if_neg hng]

/-- Witness for C3 at the whitespace-only response of two spaces. -/
theorem displayedContent_never_blank_w :
    displayedContent (some "  ") = stillProcessingMsg :=
  (displayedContent_never_blank "  " (by decide)).2.2

/-- Claim C7: a network-level fetch failure (message `Failed to fetch` or a
`TypeError`) yields the labelled backend-unreachable fallback telling the
user to start the backend and try again, while any other error yields the
generic something-went-wrong message. -/
theorem chatErrorMessage_spec (e : JsError) :
    (isNetworkError e = true → chatErrorMessage e = "❌ " ++ backendDownMsg) ∧
    (isNetworkError e = false →
      chatErrorMessage e =
        "❌ " ++ ("Something went wrong: " ++ e.message ++ ". Try again.")) := by
  constructor <;> intro h <;> simp [chatErrorMessage, h]

/-- Witness for C7: a fetch failure and a non-network error. -/
theorem chatErrorMessage_spec_w :
    chatErrorMessage ⟨"TypeError", "Failed to fetch"⟩ = "❌ " ++ backendDownMsg ∧
    chatErrorMessage ⟨"Error", "boom"⟩ =
      "❌ " ++ ("Something went wrong: " ++ "boom" ++ ". Try again.") :=
  ⟨(chatErrorMessage_spec ⟨"TypeError", "Failed to fetch"⟩).1 (by decide),
   (chatErrorMessage_spec ⟨"Error", "boom"⟩).2 (by decide)⟩

/-- Claim C1 (amended): for a patient-role session, a non-empty assistant
text that asks for a date makes `parseSuggestedActions` return exactly THREE
calendar day labels — today, tomorrow and the day after tomorrow — in
chronological order (the claim said only the next two). -/
theorem patient_date_suggestions (d : Nat) (txt : String) (h0 : txt ≠ "")
    (h1 : wantsDate (jsToLowerCase txt) = true) :
    parseSuggestedActions "patient" d (some txt) =
      [ "Today (" ++ formatDate d ++ ")",
        "Tomorrow (" ++ formatDate (d + 1) ++ ")",
        formatDate (d + 2) ] := by
  simp [parseSuggestedActions, h0, h1, getNextTwoDays,
    show ("patient" : String) ≠ "doctor" from by decide]

/-- Counterexample to C1 as stated: for the assistant text "Which date would
you like?" the patient-role suggestions have three entries, not exactly the
two next-day labels. -/
theorem patient_date_suggestions_cex :
    (parseSuggestedActions "patient" 20000 (some "Which date would you like?")).length = 3 ∧
    (parseSuggestedActions "patient" 20000 (some "Which date would you like?")).length ≠ 2 := by
  decide

/-- Witness for C1 (amended) at day 20000 (2024-10-04). -/
theorem patient_date_suggestions_w :
    parseSuggestedActions "patient" 20000 (some "Which date would you like?") =
      [ "Today (" ++ formatDate 20000 ++ ")",
        "Tomorrow (" ++ formatDate (20000 + 1) ++ ")",
        formatDate (20000 + 2) ] :=
  patient_date_suggestions 20000 "Which date would you like?" (by decide) (by decide)

/-- Claim C2 (amended): after the empty-input guard, the DOCTOR-role check
comes first — for any non-empty text a doctor-role session always gets the
fixed quick menu — and only for non-doctor (patient) sessions are the four
text rules tried, in the declared order with first match winning. -/
theorem inferencer_rule_order (d : Nat) (txt : String) (h0 : txt ≠ "") :
    (parseSuggestedActions "doctor" d (some txt) = doctorMenu) ∧
    (wantsDate (jsToLowerCase txt) = true →
      parseSuggestedActions "patient" d (some txt) = (getNextTwoDays d).map DateOption.label) ∧
    (wantsDate (jsToLowerCase txt) = false → wantsTime (jsToLowerCase txt) = true →
      parseSuggestedActions "patient" d (some txt) =
        if (extractTimeSlots txt).length > 0 then extractTimeSlots txt else defaultSlots) ∧
    (wantsDate (jsToLowerCase txt) = false → wantsTime (jsToLowerCase txt) = false →
        wantsConfirm (jsToLowerCase txt) = true →
      parseSuggestedActions "patient" d (some txt) = ["Yes, confirm", "No, cancel"]) ∧
    (wantsDate (jsToLowerCase txt) = false → wantsTime (jsToLowerCase txt) = false →
        wantsConfirm (jsToLowerCase txt) = false → wantsDoctor (jsToLowerCase txt) = true →
      parseSuggestedActions "patient" d (some txt) = patientDoctorList) ∧
    (wantsDate (jsToLowerCase txt) = false → wantsTime (jsToLowerCase txt) = false →
        wantsConfirm (jsToLowerCase txt) = false → wantsDoctor (jsToLowerCase txt) = false →
      parseSuggestedActions "patient" d (some txt) = []) := by
  refine ⟨?_, ?_, ?_, ?_, ?_, ?_⟩
  · simp [parseSuggestedActions, h0]
  all_goals intros
  all_goals simp_all [parseSuggestedActions, show ("patient" : String) ≠ "doctor" from by decide]

/-- Counterexample to C2 as stated: the text rules are NOT tried before the
role check — a doctor-role session asked "Which date would you like?" gets
the quick menu, not the date labels rule 1 would produce. -/
theorem inferencer_rule_order_cex :
    parseSuggestedActions "doctor" 20000 (some "Which date would you like?") = doctorMenu ∧
    parseSuggestedActions "doctor" 20000 (some "Which date would you like?") ≠
      (getNextTwoDays 20000).map DateOption.label := by
  decide

/-- Witness for C2 (amended): doctor override and patient date rule at a
concrete input. -/
theorem inferencer_rule_order_w :
    parseSuggestedActions "doctor" 20000 (some "Which date would you like?") = doctorMenu ∧
    parseSuggestedActions "patient" 20000 (some "Which date would you like?") =
      (getNextTwoDays 20000).map DateOption.label :=
  ⟨(inferencer_rule_order 20000 "Which date would you like?" (by decide)).1,
   (inferencer_rule_order 20000 "Which date would you like?" (by decide)).2.1 (by decide)⟩

/-- Claim C5 (amended): for a patient-role session whose text asks for a
time/slot AND does not also trigger the earlier date rule, the inferencer
returns exactly the time tokens extracted from the text when there is at
least one, and the fixed default slot set otherwise. -/
theorem patient_time_suggestions (d : Nat) (txt : String) (h0 : txt ≠ "")
    (hd : wantsDate (jsToLowerCase txt) = false)
    (ht : wantsTime (jsToLowerCase txt) = true) :
    (extractTimeSlots txt ≠ [] →
      parseSuggestedActions "patient" d (some txt) = extractTimeSlots txt) ∧
    (extractTimeSlots txt = [] →
      parseSuggestedActions "patient" d (some txt) = defaultSlots) := by
  constructor <;> intro hx
  · have hlen : 0 < (extractTimeSlots txt).length := List.length_pos.mpr hx
    simp [parseSuggestedActions, h0, hd, ht, hlen,
      show ("patient" : String) ≠ "doctor" from by decide]
  · simp [parseSuggestedActions, h0, hd, ht, hx,
      show ("patient" : String) ≠ "doctor" from by decide]

/-- Counterexample to C5 as stated: "What date and what time?" asks for a
time and holds no time token, yet the result is not the default slot set,
because the earlier date rule wins. -/
theorem patient_time_suggestions_cex :
    wantsTime (jsToLowerCase "What date and what time?") = true ∧
    extractTimeSlots "What date and what time?" = [] ∧
    parseSuggestedActions "patient" 20000 (some "What date and what time?") ≠ defaultSlots := by
  decide

/-- Witness for C5 (amended): one text with an extractable token and one
without. -/
theorem patient_time_suggestions_w :
    parseSuggestedActions "patient" 20000 (some "We have 9:30 am available slots") =
      extractTimeSlots "We have 9:30 am available slots" ∧
    parseSuggestedActions "patient" 20000 (some "What time would suit?") = defaultSlots :=
  ⟨(patient_time_suggestions 20000 "We have 9:30 am available slots"
      (by decide) (by decide) (by decide)).1 (by decide),
   (patient_time_suggestions 20000 "What time would suit?"
      (by decide) (by decide) (by decide)).2 (by decide)⟩

/-- Claim C6 (amended): when the patient-role text asks which doctor and no
earlier rule matches, the inferencer returns a fixed list of three doctor
names — a strict subset of the five-doctor roster the client knows. -/
theorem patient_doctor_roster (d : Nat) (txt : String) (h0 : txt ≠ "")
    (hd : wantsDate (jsToLowerCase txt) = false)
    (ht : wantsTime (jsToLowerCase txt) = false)
    (hc : wantsConfirm (jsToLowerCase txt) = false)
    (hw : wantsDoctor (jsToLowerCase txt) = true) :
    parseSuggestedActions "patient" d (some txt) = patientDoctorList ∧
    patientDoctorList.length = 3 ∧ (clientDoctors.map Doctor.name).length = 5 := by
  refine ⟨?_, by decide, by decide⟩
  simp [parseSuggestedActions, h0, hd, ht, hc, hw,
    show ("patient" : String) ≠ "doctor" from by decide]

/-- Counterexample to C6 as stated: the suggestions for "Which doctor would
you like to see?" are three names, not the full five-name client roster. -/
theorem patient_doctor_roster_cex :
    parseSuggestedActions "patient" 20000 (some "Which doctor would you like to see?") =
      patientDoctorList ∧
    patientDoctorList ≠ clientDoctors.map Doctor.name ∧
    patientDoctorList.length = 3 ∧ (clientDoctors.map Doctor.name).length = 5 := by
  decide

/-- Witness for C6 (amended) at a concrete doctor-selection prompt. -/
theorem patient_doctor_roster_w :
    parseSuggestedActions "patient" 20000 (some "Which doctor would you like to see?") =
      patientDoctorList :=
  (patient_doctor_roster 20000 "Which doctor would you like to see?" (by decide) (by decide)
    (by decide) (by decide) (by decide)).1

/-! ### Lemmas about the reason counting of `fetchStats` -/

/-- Bumping a key increments exactly that key's count. -/
lemma keyCount_bump_self (acc : List (String × Nat)) (r : String) :
    keyCount r (bumpReason acc r) = keyCount r acc + 1 := by
  induction acc with
  | nil => simp [bumpReason, keyCount]
  | cons p rest ih =>
    by_cases hp : p.1 = r
    · simp [bumpReason, keyCount, hp]
    · simp [bumpReason, keyCount, hp, ih]

/-- Bumping a key leaves every other key's count unchanged. -/
lemma keyCount_bump_other (acc : List (String × Nat)) (r r' : String) (h : r' ≠ r) :
    keyCount r' (bumpReason acc r) = keyCount r' acc := by
  have h' : ¬(r = r') := fun hh => h hh.symm
  induction acc with
  | nil => simp [bumpReason, keyCount, h']
  | cons p rest ih =>
    by_cases hp : p.1 = r
    · have hp' : ¬(p.1 = r') := by rw [hp]; exact h'
      simp [bumpReason, keyCount, hp, hp', h']
    · by_cases hq : p.1 = r'
      · simp [bumpReason, keyCount, hp, hq, h, h']
      · simp [bumpReason, keyCount, hp, hq, ih]

/-- The keys after a bump: unchanged when the key was present, the key
appended otherwise. -/
lemma fst_bump (acc : List (String × Nat)) (r : String) :
    (bumpReason acc r).map Prod.fst =
      if r ∈ acc.map Prod.fst then acc.map Prod.fst else acc.map Prod.fst ++ [r] := by
  induction acc with
  | nil => simp [bumpReason]
  | cons p rest ih =>
    by_cases hp : p.1 = r
    · simp [bumpReason, hp]
    · have hp' : ¬(r = p.1) := fun hh => hp hh.symm
      by_cases hm : r ∈ rest.map Prod.fst
      · simp [bumpReason, hp, hp', hm, ih]
      · simp [bumpReason, hp, hp', hm, ih]

/-- Bumping preserves distinctness of the keys. -/
lemma keysNodup_bump (acc : List (String × Nat)) (r : String)
    (h : (acc.map Prod.fst).Nodup) : ((bumpReason acc r).map Prod.fst).Nodup := by
  rw [fst_bump]
  by_cases hm : r ∈ acc.map Prod.fst
  · simpa [hm]
  · simpa [hm, List.nodup_append]

/-- After folding the reason list, each key's count grows by the number of
appointments labelled with it. -/
lemma keyCount_foldl (r : String) (l : List (Option String)) :
    ∀ acc : List (String × Nat),
      keyCount r (l.foldl (fun acc a => bumpReason acc (reasonLabel a)) acc)
        = keyCount r acc + l.countP (fun a => reasonLabel a = r) := by
  induction l with
  | nil => intro acc; simp
  | cons a l ih =>
    intro acc
    rw [List.foldl_cons, ih, List.countP_cons]
    by_cases ha : reasonLabel a = r
    · rw [ha, keyCount_bump_self]
      simp [ha]
      omega
    · rw [keyCount_bump_other _ _ _ (fun hh => ha hh.symm)]
      simp [ha]

/-- Folding the reason list preserves distinctness of the keys. -/
lemma keysNodup_foldl (l : List (Option String)) :
    ∀ acc : List (String × Nat), (acc.map Prod.fst).Nodup →
      ((l.foldl (fun acc a => bumpReason acc (reasonLabel a)) acc).map Prod.fst).Nodup := by
  induction l with
  | nil => intro acc h; simpa
  | cons a l ih => intro acc h; exact ih _ (keysNodup_bump _ _ h)

/-- On an association list with distinct keys, lookup of a member's key
returns its count. -/
lemma keyCount_of_mem : ∀ {l : List (String × Nat)} {p : String × Nat},
    (l.map Prod.fst).Nodup → p ∈ l → keyCount p.1 l = p.2 := by
  intro l
  induction l with
  | nil => intro p _ hp; cases hp
  | cons q rest ih =>
    intro p hn hp
    rcases List.mem_cons.mp hp with h | h
    · subst h; simp [keyCount]
    · have hq : ¬(q.1 = p.1) := by
        intro hqe
        have hmem : p.1 ∈ rest.map Prod.fst := List.mem_map_of_mem Prod.fst h
        rw [← hqe] at hmem
        exact (List.nodup_cons.mp hn).1 hmem
      rw [keyCount, if_neg hq]
      exact ih (List.nodup_cons.mp hn).2 h

/-- Claim C10: the `topReasons` statistic computed by `DoctorReportsPage`
from any appointment list has at most 5 entries, is sorted in non-increasing
order of occurrence count, every entry's count is the number of appointments
labelled with its key, and a missing (or empty) reason is labelled
"Not specified". -/
theorem topReasons_spec (reasons : List (Option String)) :
    (topReasons reasons).length ≤ 5 ∧
    List.Sorted countGE (topReasons reasons) ∧
    (∀ p ∈ topReasons reasons, p.2 = reasons.countP (fun a => reasonLabel a = p.1)) ∧
    reasonLabel none = "Not specified" ∧ reasonLabel (some "") = "Not specified" := by
  refine ⟨?_, ?_, ?_, rfl, rfl⟩
  · have hl : (topReasons reasons).length =
        min 5 (((reasonCounts reasons).insertionSort countGE).length) := by
      simp [topReasons]
    omega
  · exact List.Pairwise.sublist (List.take_sublist 5 _)
      (List.sorted_insertionSort countGE (reasonCounts reasons))
  · intro p hp
    have hp1 : p ∈ (reasonCounts reasons).insertionSort countGE :=
      (List.take_sublist 5 _).subset hp
    have hp2 : p ∈ reasonCounts reasons :=
      (List.perm_insertionSort countGE _).mem_iff.mp hp1
    have hn : ((reasonCounts reasons).map Prod.fst).Nodup :=
      keysNodup_foldl reasons [] (by simp)
    have hk := keyCount_of_mem hn hp2
    rw [← hk, reasonCounts, keyCount_foldl]
    simp [keyCount]

/-- Witness for C10: the count of the "fever" entry on a concrete list. -/
theorem topReasons_spec_w :
    (("fever", 2) : String × Nat).2 =
      ([some "fever", none, some "fever"] : List (Option String)).countP
        (fun a => reasonLabel a = (("fever", 2) : String × Nat).1) :=
  (topReasons_spec [some "fever", none, some "fever"]).2.2.1 ("fever", 2) (by decide)

/-! ### Lemmas about the time scanner -/

/-- A meridiem captured by `tailHere` is one of the four regex
alternatives. -/
lemma tailHere_meridiem : ∀ (pc : Char) (cs : List Char) (mer : Option String)
    (rest : List Char) (lc : Char), tailHere pc cs = some (mer, rest, lc) →
    ∀ s, mer = some s → isMeridiemStr s = true := by
  intro pc cs mer rest lc h s hs
  subst hs
  rcases cs with _ | ⟨c1, _ | ⟨c2, r⟩⟩
  · simp only [tailHere] at h
    split_ifs at h
    simp at h
  · simp only [tailHere] at h
    split_ifs at h
    simp at h
  · simp only [tailHere] at h
    split_ifs at h with h1 h2 <;> simp at h
    obtain ⟨he, -, -⟩ := h
    rw [← he]
    exact (Bool.and_eq_true_iff.mp h1).1

/-- A meridiem captured by `matchTail` is one of the four regex
alternatives. -/
lemma matchTail_meridiem : ∀ (cs : List Char) (pc : Char) (mer : Option String)
    (rest : List Char) (lc : Char), matchTail pc cs = some (mer, rest, lc) →
    ∀ s, mer = some s → isMeridiemStr s = true := by
  intro cs
  induction cs with
  | nil => intro pc mer rest lc h; exact tailHere_meridiem pc [] mer rest lc h
  | cons c r ih =>
    intro pc mer rest lc h s hs
    subst hs
    rw [matchTail] at h
    split at h
    · cases hrec : matchTail c r with
      | some v =>
        obtain ⟨mer1, rest1, lc1⟩ := v
        rw [hrec] at h
        simp only [Option.some.injEq, Prod.mk.injEq] at h
        obtain ⟨h1, -, -⟩ := h
        exact ih c mer1 rest1 lc1 hrec s h1
      | none =>
        rw [hrec] at h
        exact tailHere_meridiem pc (c :: r) (some s) rest lc h s rfl
    · exact tailHere_meridiem pc (c :: r) (some s) rest lc h s rfl

/-- The minute group captured by `matchMin` is exactly two digit
characters. -/
lemma matchMin_shape : ∀ (cs ms : List Char) (lc : Char) (rest : List Char),
    matchMin cs = some (ms, lc, rest) →
    ∃ m1 m2, ms = [m1, m2] ∧ m1.isDigit = true ∧ m2.isDigit = true := by
  intro cs ms lc rest h
  rcases cs with _ | ⟨m1, _ | ⟨m2, r⟩⟩
  · simp [matchMin] at h
  · simp [matchMin] at h
  · rw [matchMin] at h
    split at h
    · rename_i hcond
      obtain ⟨h1, h2⟩ := Bool.and_eq_true_iff.mp hcond
      simp only [Option.some.injEq, Prod.mk.injEq] at h
      exact ⟨m1, m2, h.1.symm, h1, h2⟩
    · exact absurd h (by simp)

/-- Every raw match produced at one position has a two-digit minute group
and a legitimate optional meridiem. -/
lemma tryTimeAt_good : ∀ (prev : Option Char) (cs : List Char) (t : RawTime)
    (rem : List Char) (lc : Char), tryTimeAt prev cs = some (t, rem, lc) →
    (∃ m1 m2, t.minStr = [m1, m2] ∧ m1.isDigit = true ∧ m2.isDigit = true) ∧
    ∀ s, t.meridiem = some s → isMeridiemStr s = true := by
  intro prev cs t rem lc h
  rw [tryTimeAt] at h
  split at h
  · exact absurd h (by simp)
  · cases hh : matchHour cs with
    | none => simp only [hh] at h; exact Option.noConfusion h
    | some hr =>
      obtain ⟨hs1, rest1⟩ := hr
      simp only [hh] at h
      cases hm : matchMin rest1 with
      | none => simp only [hm] at h; exact Option.noConfusion h
      | some mr =>
        obtain ⟨ms, lastMin, rest2⟩ := mr
        simp only [hm] at h
        cases htl : matchTail lastMin rest2 with
        | none => simp only [htl] at h; exact Option.noConfusion h
        | some tr =>
          obtain ⟨mer, rest3, lastC⟩ := tr
          simp only [htl, Option.some.injEq, Prod.mk.injEq] at h
          obtain ⟨ht, -, -⟩ := h
          rw [← ht]
          constructor
          · exact matchMin_shape rest1 ms lastMin rest2 hm
          · intro s hs
            exact matchTail_meridiem rest2 lastMin mer rest3 lastC htl s hs

/-- Every raw match of the whole scan has a two-digit minute group and a
legitimate optional meridiem. -/
lemma scanAux_good : ∀ (fuel : Nat) (prev : Option Char) (cs : List Char),
    ∀ t ∈ scanAux fuel prev cs,
      (∃ m1 m2, t.minStr = [m1, m2] ∧ m1.isDigit = true ∧ m2.isDigit = true) ∧
      ∀ s, t.meridiem = some s → isMeridiemStr s = true := by
  intro fuel
  induction fuel with
  | zero => intro prev cs t ht; simp [scanAux] at ht
  | succ fuel ih =>
    intro prev cs t ht
    rcases cs with _ | ⟨c, rest⟩
    · simp [scanAux] at ht
    · rw [scanAux] at ht
      cases htry : tryTimeAt prev (c :: rest) with
      | none =>
        rw [htry] at ht
        exact ih (some c) rest t ht
      | some r =>
        obtain ⟨t0, rem, lastC⟩ := r
        rw [htry] at ht
        rcases List.mem_cons.mp ht with he | he
        · subst he
          exact tryTimeAt_good prev (c :: rest) t rem lastC htry
        · exact ih (some lastC) rem t he

/-- Everything surviving the dedup pass came from the input and was not in
the already-seen set. -/
lemma mem_dedupAux : ∀ (l seen : List String) (x : String),
    x ∈ dedupAux seen l → x ∈ l ∧ x ∉ seen := by
  intro l
  induction l with
  | nil => intro seen x hx; simp [dedupAux] at hx
  | cons a l ih =>
    intro seen x hx
    by_cases hm : a ∈ seen
    · simp only [dedupAux, if_pos hm] at hx
      obtain ⟨h1, h2⟩ := ih seen x hx
      exact ⟨List.mem_cons_of_mem a h1, h2⟩
    · simp only [dedupAux, if_neg hm] at hx
      rcases List.mem_cons.mp hx with he | he
      · subst he
        exact ⟨List.mem_cons_self x l, hm⟩
      · obtain ⟨h1, h2⟩ := ih (a :: seen) x he
        exact ⟨List.mem_cons_of_mem a h1, fun hc => h2 (List.mem_cons_of_mem a hc)⟩

/-- The dedup pass yields a list without duplicates. -/
lemma nodup_dedupAux : ∀ (l seen : List String), (dedupAux seen l).Nodup := by
  intro l
  induction l with
  | nil => intro seen; simp [dedupAux]
  | cons a l ih =>
    intro seen
    by_cases hm : a ∈ seen
    · simpa [dedupAux, hm] using ih seen
    · rw [dedupAux, if_neg hm, List.nodup_cons]
      exact ⟨fun hc => (mem_dedupAux l (a :: seen) a hc).2 (List.mem_cons_self a seen),
        ih (a :: seen)⟩

/-- Normalizing any legitimate raw match gives a string of the shape
`hour:MM MER` with `MM` two digits and `MER` upper-case AM or PM. -/
lemma normalizeRaw_form (t : RawTime)
    (hmin : ∃ m1 m2, t.minStr = [m1, m2] ∧ m1.isDigit = true ∧ m2.isDigit = true)
    (hmer : ∀ s, t.meridiem = some s → isMeridiemStr s = true) :
    ∃ (n : Nat) (m1 m2 : Char) (mer : String),
      (mer = "AM" ∨ mer = "PM") ∧ m1.isDigit = true ∧ m2.isDigit = true ∧
      normalizeRaw t = toString n ++ ":" ++ String.mk [m1, m2] ++ " " ++ mer := by
  obtain ⟨m1, m2, hms, h1, h2⟩ := hmin
  cases hm : t.meridiem with
  | none =>
    have hform : normalizeRaw t =
        toString (if (if parseIntDigits t.hourStr > 12 then parseIntDigits t.hourStr - 12
            else parseIntDigits t.hourStr) = 0 then 12
          else (if parseIntDigits t.hourStr > 12 then parseIntDigits t.hourStr - 12
            else parseIntDigits t.hourStr)) ++ ":" ++ String.mk [m1, m2] ++ " "
          ++ (if parseIntDigits t.hourStr ≥ 12 then "PM" else "AM") := by
      simp only [normalizeRaw, hm, hms]
    by_cases h12 : parseIntDigits t.hourStr ≥ 12
    · exact ⟨(if (if parseIntDigits t.hourStr > 12 then parseIntDigits t.hourStr - 12
            else parseIntDigits t.hourStr) = 0 then 12
          else (if parseIntDigits t.hourStr > 12 then parseIntDigits t.hourStr - 12
            else parseIntDigits t.hourStr)), m1, m2, "PM", Or.inr rfl, h1, h2,
        by rw [hform, if_pos h12]⟩
    · exact ⟨(if (if parseIntDigits t.hourStr > 12 then parseIntDigits t.hourStr - 12
            else parseIntDigits t.hourStr) = 0 then 12
          else (if parseIntDigits t.hourStr > 12 then parseIntDigits t.hourStr - 12
            else parseIntDigits t.hourStr)), m1, m2, "AM", Or.inl rfl, h1, h2,
        by rw [hform, if_neg h12]⟩
  | some s =>
    have hs := hmer s hm
    have hs4 : s = "AM" ∨ s = "PM" ∨ s = "am" ∨ s = "pm" := by
      simpa [isMeridiemStr, or_assoc] using hs
    have hform : normalizeRaw t =
        toString (parseIntDigits t.hourStr) ++ ":" ++ String.mk [m1, m2] ++ " "
          ++ jsToUpperCase s := by
      simp only [normalizeRaw, hm, hms]
    rcases hs4 with h | h | h | h <;> subst h
    · exact ⟨parseIntDigits t.hourStr, m1, m2, "AM", Or.inl rfl, h1, h2, by rw [hform]; rfl⟩
    · exact ⟨parseIntDigits t.hourStr, m1, m2, "PM", Or.inr rfl, h1, h2, by rw [hform]; rfl⟩
    · exact ⟨parseIntDigits t.hourStr, m1, m2, "AM", Or.inl rfl, h1, h2, by rw [hform]; rfl⟩
    · exact ⟨parseIntDigits t.hourStr, m1, m2, "PM", Or.inr rfl, h1, h2, by rw [hform]; rfl⟩

/-- Claim C8 (amended): every string returned by `extractTimeSlots` has the
shape `H:MM MER` with two minute digits and upper-case AM/PM, and the list
has no duplicates; the 24-hour conversion (and the hour-0-to-12 rewrite)
applies ONLY to tokens without an explicit meridiem — a token with a
meridiem keeps its hour verbatim, with the meridiem upper-cased. -/
theorem extractTimeSlots_shape (text : String) :
    (extractTimeSlots text).Nodup ∧
    (∀ s ∈ extractTimeSlots text, ∃ (n : Nat) (m1 m2 : Char) (mer : String),
      (mer = "AM" ∨ mer = "PM") ∧ m1.isDigit = true ∧ m2.isDigit = true ∧
      s = toString n ++ ":" ++ String.mk [m1, m2] ++ " " ++ mer) ∧
    (∀ t : RawTime, ∀ s, t.meridiem = some s →
      normalizeRaw t = toString (parseIntDigits t.hourStr) ++ ":" ++ String.mk t.minStr
        ++ " " ++ jsToUpperCase s) ∧
    (∀ t : RawTime, t.meridiem = none → parseIntDigits t.hourStr = 0 →
      normalizeRaw t = toString (12 : Nat) ++ ":" ++ String.mk t.minStr ++ " " ++ "AM") := by
  refine ⟨nodup_dedupAux _ [], ?_, ?_, ?_⟩
  · intro s hs
    have hs1 : s ∈ (scanTimes text).map normalizeRaw :=
      (mem_dedupAux _ [] s hs).1
    obtain ⟨t, htmem, hteq⟩ := List.mem_map.mp hs1
    obtain ⟨hmin, hmer⟩ := scanAux_good text.data.length none text.data t htmem
    obtain ⟨n, m1, m2, mer, hm, h1, h2, hform⟩ := normalizeRaw_form t hmin hmer
    exact ⟨n, m1, m2, mer, hm, h1, h2, by rw [← hteq, hform]⟩
  · intro t s hs
    simp only [normalizeRaw, hs]
  · intro t h0 hh
    simp [normalizeRaw, h0, hh]

/-- Counterexample to C8 as stated: the token `0:30 am` has an explicit
meridiem, so its hour 0 is NOT rewritten to 12 — the extractor returns
"0:30 AM", which is not the normalized 12-hour time "12:30 AM". -/
theorem extractTimeSlots_shape_cex :
    extractTimeSlots "0:30 am" = ["0:30 AM"] ∧ ("0:30 AM" : String) ≠ "12:30 AM" := by
  decide

/-- Witness for C8 (amended) at the extracted token of "at 9:00 AM". -/
theorem extractTimeSlots_shape_w :
    ∃ (n : Nat) (m1 m2 : Char) (mer : String),
      (mer = "AM" ∨ mer = "PM") ∧ m1.isDigit = true ∧ m2.isDigit = true ∧
      ("9:00 AM" : String) = toString n ++ ":" ++ String.mk [m1, m2] ++ " " ++ mer :=
  (extractTimeSlots_shape "at 9:00 AM").2.1 "9:00 AM" (by decide)
